import Mathlib

/-!
Shallow embedding of the firmware-flashing engine in `flash.py`
(piksi_tools).  Pure functions of the source become Lean functions;
the stateful parts of the `Flash` class become explicit state passing
over `FlashState`; Python exceptions become `Except` results.
Addresses are `Int` (Python ints), bytes are `Nat` values below 256.
-/

namespace PiksiFlash

/-- Device family chosen at `Flash.__init__`; an unknown family raises
`ValueError` there, so only these two inhabit the model. -/
inductive FlashType
  | STM
  | M25
deriving DecidableEq

/-- Errors the embedded operations can produce.  `packError` stands for a
Python `struct.error` raised while encoding a request, `policyViolation`
for the `Exception` raised on a restricted-sector erase, `verifyError a`
for the read-back-mismatch `Exception` raised at address `a` in
`write_ihx`.  The source has no in-flight-operation error of any kind. -/
inductive FlashErr
  | packError
  | policyViolation
  | verifyError (addr : Int)
deriving DecidableEq

/-- The mutable fields of the `Flash` class that the embedding tracks:
`_waiting_for_callback` and `_read_callback_data`. -/
structure FlashState where
  waiting : Bool
  read_data : List Nat
deriving DecidableEq

/-- `ADDRS_PER_OP = 128` in the source. -/
def ADDRS_PER_OP : Nat := 128

/-- `stm_addr_sector_map` from the source: a chain of
`if addr >= lo and addr < hi: return k` tests ending in `return None`. -/
def stm_addr_sector_map (addr : Int) : Option Nat :=
  if 0x08000000 ≤ addr ∧ addr < 0x08004000 then some 0
  else if 0x08004000 ≤ addr ∧ addr < 0x08008000 then some 1
  else if 0x08008000 ≤ addr ∧ addr < 0x0800C000 then some 2
  else if 0x0800C000 ≤ addr ∧ addr < 0x08010000 then some 3
  else if 0x08010000 ≤ addr ∧ addr < 0x08020000 then some 4
  else if 0x08020000 ≤ addr ∧ addr < 0x08040000 then some 5
  else if 0x08040000 ≤ addr ∧ addr < 0x08060000 then some 6
  else if 0x08060000 ≤ addr ∧ addr < 0x08080000 then some 7
  else if 0x08080000 ≤ addr ∧ addr < 0x080A0000 then some 8
  else if 0x080A0000 ≤ addr ∧ addr < 0x080C0000 then some 9
  else if 0x080C0000 ≤ addr ∧ addr < 0x080E0000 then some 10
  else if 0x080E0000 ≤ addr ∧ addr < 0x08100000 then some 11
  else none

/-- `m25_addr_sector_map` from the source: raises `ValueError` when
`addr < 0 or addr > 0xFFFFF`, otherwise returns `addr >> 16`. -/
def m25_addr_sector_map (addr : Int) : Except Unit Nat :=
  if addr < 0 ∨ 0xFFFFF < addr then .error ()
  else .ok (addr.toNat >>> 16)

/-- The `self.addr_sector_map` field of the engine.  Both a `None` from
the STM map and a `ValueError` from the M25 map abort any engine-level
caller, so both collapse to `none` here; the raw definitions above keep
the source's distinction. -/
def addr_sector_map (ft : FlashType) (addr : Int) : Option Nat :=
  match ft with
  | .STM => stm_addr_sector_map addr
  | .M25 => (m25_addr_sector_map addr).toOption

/-- Start address of STM sector `s` (for `s ≥ 12`, the exclusive end of
the window).  Used only to state theorems about `stm_addr_sector_map`. -/
def stmSectorStart : Nat → Int
  | 0 => 0x08000000
  | 1 => 0x08004000
  | 2 => 0x08008000
  | 3 => 0x0800C000
  | 4 => 0x08010000
  | 5 => 0x08020000
  | 6 => 0x08040000
  | 7 => 0x08060000
  | 8 => 0x08080000
  | 9 => 0x080A0000
  | 10 => 0x080C0000
  | 11 => 0x080E0000
  | _ + 12 => 0x08100000

/-- `Flash.sector_restricted`: STM restricts sectors below 4, M25 restricts
sector 15.  Sector indices are derived from the (non-negative) sector maps,
so `Nat` suffices. -/
def sector_restricted (ft : FlashType) (sector : Nat) : Bool :=
  match ft with
  | .STM => decide (sector < 4)
  | .M25 => decide (sector = 15)

/-- The four bytes of `struct.pack` with format `<I`, little endian. -/
def le4 (n : Nat) : List Nat :=
  [n % 256, n / 256 % 256, n / 65536 % 256, n / 16777216 % 256]

/-- `struct.pack` with format `<IB`: fails (raises `struct.error`) unless
`0 ≤ addr < 2^32` and the byte argument fits in one byte. -/
def pack_IB (addr : Int) (len : Nat) : Except Unit (List Nat) :=
  if 0 ≤ addr ∧ addr < 4294967296 ∧ len ≤ 255 then
    .ok (le4 addr.toNat ++ [len])
  else .error ()

/-- The message body `Flash.write` sends: `struct.pack` of address and
payload length followed by the payload itself; encoding failure raises
before anything is sent. -/
def write_msg (addr : Int) (data : List Nat) : Except FlashErr (List Nat) :=
  match pack_IB addr data.length with
  | .error _ => .error .packError
  | .ok buf => .ok (buf ++ data)

/-- `Flash.write` up to its send: encode, set `_waiting_for_callback`,
send.  The returned list is the message handed to the transport.  The
source performs no in-flight check before sending. -/
def write_op (st : FlashState) (addr : Int) (data : List Nat) :
    Except FlashErr (FlashState × List Nat) :=
  match write_msg addr data with
  | .error e => .error e
  | .ok m => .ok ({ st with waiting := true }, m)

/-- `Flash.read` up to its send: encode address and requested length, set
`_waiting_for_callback`, send.  No in-flight check in the source. -/
def read_op (st : FlashState) (addr : Int) (length : Nat) :
    Except FlashErr (FlashState × List Nat) :=
  match pack_IB addr length with
  | .error _ => .error .packError
  | .ok buf => .ok ({ st with waiting := true }, buf)

/-- `Flash.erase_sector` up to its send: optional restriction check, then
`struct.pack` of the one-byte sector index, then send.  No in-flight
check in the source. -/
def erase_op (ft : FlashType) (st : FlashState) (sector : Nat) (check : Bool) :
    Except FlashErr (FlashState × List Nat) :=
  if check ∧ sector_restricted ft sector then .error .policyViolation
  else if sector ≤ 255 then .ok ({ st with waiting := true }, [sector])
  else .error .packError

/-- `Flash._read_callback`: 4 bytes echoed address, 1 byte length, then
exactly `length` data bytes; `struct.unpack` fails unless the frame has
exactly that shape.  Stores the payload and clears the waiting flag. -/
def read_callback (_st : FlashState) (data : List Nat) : Except FlashErr FlashState :=
  if 5 ≤ data.length ∧ data.length - 5 = data.getD 4 0 then
    .ok { waiting := false, read_data := data.drop 5 }
  else .error .packError

/-- Worker for `ihx_ranges`: the `groupby(enumerate(...), i - x)` of the
source groups consecutive addresses exactly while each is the successor
of the previous, and `first_last` keeps the first and last member of
each group, both inclusive. -/
def ihxGo (first last : Int) : List Int → List (Int × Int)
  | [] => [(first, last)]
  | y :: ys =>
    if y = last + 1 then ihxGo first y ys
    else (first, last) :: ihxGo y y ys

/-- `ihx_ranges` from the source, acting on the ascending list of
populated addresses of the image. -/
def ihx_ranges : List Int → List (Int × Int)
  | [] => []
  | x :: xs => ihxGo x x xs

/-- The sectors `set(range(m s, m e + 1))` contributes in
`Flash.sectors_used`, as a list: `[s', s'+1, ..., e']`, empty when
`e' < s'` (Python `range` semantics). -/
def sectorSeg (s e : Nat) : List Nat :=
  (List.range (e + 1 - s)).map (· + s)

/-- `Flash.sectors_used`: union the per-range sector segments, then
`sorted(list(set(...)))`; a failing sector lookup aborts the whole call. -/
def sectors_used (ft : FlashType) (addrs : List (Int × Int)) : Option (List Nat) :=
  (addrs.foldlM (fun (acc : List Nat) (p : Int × Int) => do
      let s ← addr_sector_map ft p.1
      let e ← addr_sector_map ft p.2
      pure (acc ++ sectorSeg s e)) []).map
    (fun (l : List Nat) => l.dedup.insertionSort (· ≤ ·))

/-- The stride addresses `range(s, e, ADDRS_PER_OP)` of the write loop in
`Flash.write_ihx` (Python `range` with step 128). -/
def strides (s e : Int) : List Int :=
  (List.range ((e - s + 127) / 128).toNat).map (fun k => s + 128 * k)

/-- The write+verify loop body of `Flash.write_ihx` over a flattened list
of stride addresses.  `tobin a` is `ihx.tobinstr(start=a, size=128)`;
`dev a` is what `read(a, 128)` returns after the write at `a`.  Returns
the write messages sent, and the error (if any) that aborted the loop. -/
def write_verify_go (tobin dev : Int → List Nat) :
    List Int → List (List Nat) × Option FlashErr
  | [] => ([], none)
  | a :: rest =>
    match write_msg a (tobin a) with
    | .error _ => ([], some .packError)
    | .ok m =>
      if dev a = tobin a then
        let r := write_verify_go tobin dev rest
        (m :: r.1, r.2)
      else ([m], some (.verifyError a))

/-- Phase 2 of `Flash.write_ihx`: for each extracted range, stride through
it by `ADDRS_PER_OP` and write+verify each chunk. -/
def write_ihx_phase2 (tobin dev : Int → List Nat) (ranges : List (Int × Int)) :
    List (List Nat) × Option FlashErr :=
  write_verify_go tobin dev (ranges.flatMap (fun p => strides p.1 p.2))

/-! ## Helper lemmas -/

lemma write_msg_ok (addr : Int) (data : List Nat) (h0 : 0 ≤ addr)
    (h1 : addr < 4294967296) (h2 : data.length ≤ 255) :
    write_msg addr data = .ok (le4 addr.toNat ++ data.length :: data) := by
  unfold write_msg pack_IB
  rw [if_pos ⟨h0, h1, h2⟩]
  simp

lemma write_verify_go_spec (tobin dev : Int → List Nat) (l : List Int)
    (h : ∀ a ∈ l, 0 ≤ a ∧ a < 4294967296 ∧ (tobin a).length ≤ 255) :
    (write_verify_go tobin dev l).2 ≠ some .packError ∧
    ∀ m ∈ (write_verify_go tobin dev l).1,
      ∃ a ∈ l, m = le4 a.toNat ++ (tobin a).length :: tobin a := by
  induction l with
  | nil => simp [write_verify_go]
  | cons a rest ih =>
    obtain ⟨h0, h1, h2⟩ := h a (List.mem_cons_self _ _)
    have ih' := ih (fun x hx => h x (List.mem_cons_of_mem _ hx))
    have hmsg := write_msg_ok a (tobin a) h0 h1 h2
    unfold write_verify_go
    rw [hmsg]
    dsimp only
    by_cases hd : dev a = tobin a
    · rw [if_pos hd]
      dsimp only
      refine ⟨ih'.1, ?_⟩
      intro m hm
      rw [List.mem_cons] at hm
      rcases hm with hm | hm
      · exact ⟨a, List.mem_cons_self _ _, hm⟩
      · obtain ⟨x, hx, hxe⟩ := ih'.2 m hm
        exact ⟨x, List.mem_cons_of_mem _ hx, hxe⟩
    · rw [if_neg hd]
      refine ⟨by simp, ?_⟩
      intro m hm
      simp only [List.mem_singleton] at hm
      exact ⟨a, List.mem_cons_self _ _, hm⟩

/-! ## Claim theorems -/

/-- C2: the write+verify phase does NOT cover every populated address.
For the image whose only populated address is 50, the range extractor
yields the inclusive pair (50, 50), the stride loop `range(50, 50, 128)`
of `write_ihx` is empty, and the whole phase performs zero writes, so the
populated address 50 falls inside no written chunk. -/
theorem C2_missed_populated_address :
    ihx_ranges [50] = [(50, 50)] ∧
    (ihx_ranges [50]).flatMap (fun p => strides p.1 p.2) = [] ∧
    write_ihx_phase2 (fun _ => List.replicate 128 0) (fun _ => List.replicate 128 0)
      (ihx_ranges [50]) = ([], none) :=
  ⟨rfl, rfl, rfl⟩

/-- C3: counterexample — with a pending operation still awaiting its
callback (`waiting = true`), a second write, read, or erase request is
happily encoded and sent (returned `.ok` with the message), rather than
failing fast with any in-flight error. -/
theorem C3_counterexample :
    write_op ⟨true, []⟩ 0 [7] = .ok (⟨true, []⟩, [0, 0, 0, 0, 1, 7]) ∧
    read_op ⟨true, []⟩ 0 128 = .ok (⟨true, []⟩, [0, 0, 0, 0, 128]) ∧
    erase_op .STM ⟨true, []⟩ 5 true = .ok (⟨true, []⟩, [5]) :=
  ⟨rfl, rfl, rfl⟩

/-- C3 (amended): the engine performs no in-flight check at all.  Whatever
the `waiting` flag says, `write`, `read` and `erase_sector` fail only for
encoding or policy reasons (there is no in-flight error kind), and on the
happy path they send their request and overwrite `waiting` with `true`. -/
theorem C3_no_inflight_guard (ft : FlashType) (st : FlashState)
    (hpending : st.waiting = true) (addr : Int) (data : List Nat) (sector length : Nat) :
    (∀ e, write_op st addr data = .error e → e = .packError) ∧
    (0 ≤ addr → addr < 4294967296 → data.length ≤ 255 →
      write_op st addr data =
        .ok ({ st with waiting := true }, le4 addr.toNat ++ data.length :: data)) ∧
    (∀ e, read_op st addr length = .error e → e = .packError) ∧
    (∀ e, erase_op ft st sector true = .error e →
      e = .policyViolation ∨ e = .packError) ∧
    (sector ≤ 255 → sector_restricted ft sector = false →
      erase_op ft st sector true = .ok ({ st with waiting := true }, [sector])) := by
  clear hpending
  refine ⟨?_, ?_, ?_, ?_, ?_⟩
  · intro e he
    unfold write_op write_msg pack_IB at he
    split_ifs at he <;> simp_all
  · intro h0 h1 h2
    unfold write_op
    rw [write_msg_ok addr data h0 h1 h2]
  · intro e he
    unfold read_op pack_IB at he
    split_ifs at he <;> simp_all
  · intro e he
    unfold erase_op at he
    split_ifs at he <;> simp_all
  · intro h255 hr
    unfold erase_op
    rw [if_neg (by simp [hr]), if_pos h255]

/-- C3: witness instantiating the amended theorem at a concrete engine
state with a pending operation. -/
theorem C3_witness :
    write_op ⟨true, [9]⟩ 2 [1, 2] = .ok (⟨true, [9]⟩, [2, 0, 0, 0, 2, 1, 2]) ∧
    erase_op .M25 ⟨true, [9]⟩ 3 true = .ok (⟨true, [9]⟩, [3]) := by
  have h := C3_no_inflight_guard .M25 ⟨true, [9]⟩ rfl 2 [1, 2] 3 128
  exact ⟨h.2.1 (by norm_num) (by norm_num) (by norm_num), h.2.2.2.2 (by norm_num) rfl⟩

/-- C6: with `check = true`, `erase_sector` fails with the policy error
exactly on restricted sectors (STM: sectors 0–3, M25: sector 15); on a
policy failure no erase request is produced, and on every unrestricted
sector the one-byte erase request is sent.  Sector indices on these
devices fit in a byte, whence the `s ≤ 255` bound. -/
theorem C6_erase_policy (ft : FlashType) (st : FlashState) (s : Nat) (hs : s ≤ 255) :
    (sector_restricted ft s = true ↔ (ft = .STM ∧ s < 4) ∨ (ft = .M25 ∧ s = 15)) ∧
    (erase_op ft st s true = .error .policyViolation ↔ sector_restricted ft s = true) ∧
    (sector_restricted ft s = true → ∀ r, erase_op ft st s true ≠ .ok r) ∧
    (sector_restricted ft s = false →
      erase_op ft st s true = .ok ({ st with waiting := true }, [s])) := by
  refine ⟨?_, ?_, ?_, ?_⟩
  · cases ft <;> simp [sector_restricted]
  · by_cases hr : sector_restricted ft s = true
    · unfold erase_op
      rw [if_pos (by simp [hr])]
      simp [hr]
    · unfold erase_op
      rw [if_neg (by simp_all), if_pos hs]
      simp [hr]
  · intro hr r
    unfold erase_op
    rw [if_pos (by simp [hr])]
    simp
  · intro hr
    unfold erase_op
    rw [if_neg (by simp [hr]), if_pos hs]

/-- C6: witness — STM sector 2 is rejected with the policy error and
nothing is sent; STM sector 5 has its erase request sent. -/
theorem C6_witness :
    erase_op .STM ⟨false, []⟩ 2 true = .error .policyViolation ∧
    erase_op .STM ⟨false, []⟩ 5 true = .ok (⟨true, []⟩, [5]) := by
  exact ⟨(C6_erase_policy .STM ⟨false, []⟩ 2 (by norm_num)).2.1.mpr (by decide),
         (C6_erase_policy .STM ⟨false, []⟩ 5 (by norm_num)).2.2.2 (by decide)⟩

/-- C9: the write request is the 4-byte little-endian address, one length
byte equal to the payload length, then the payload; and the read-response
decoder returns exactly the framed payload, ignoring the four echoed
address bytes except as framing. -/
theorem C9_wire_encoding :
    (∀ (addr : Int) (data : List Nat), 0 ≤ addr → addr < 4294967296 →
      data.length ≤ 255 →
      write_msg addr data = .ok (le4 addr.toNat ++ data.length :: data)) ∧
    (∀ (st : FlashState) (b0 b1 b2 b3 n : Nat) (payload : List Nat),
      payload.length = n →
      read_callback st (b0 :: b1 :: b2 :: b3 :: n :: payload) = .ok ⟨false, payload⟩) := by
  constructor
  · exact write_msg_ok
  · intro st b0 b1 b2 b3 n payload h
    unfold read_callback
    rw [if_pos]
    · simp
    · refine ⟨by simp, ?_⟩
      simp [h]

/-- C9: witness at a concrete address, payload and response frame. -/
theorem C9_witness :
    write_msg 0x12345678 [1, 2] = .ok [0x78, 0x56, 0x34, 0x12, 2, 1, 2] ∧
    read_callback ⟨true, []⟩ [9, 9, 9, 9, 2, 5, 6] = .ok ⟨false, [5, 6]⟩ := by
  exact ⟨C9_wire_encoding.1 0x12345678 [1, 2] (by norm_num) (by norm_num) (by norm_num),
         C9_wire_encoding.2 ⟨true, []⟩ 9 9 9 9 2 [5, 6] rfl⟩

/-- C10: the one length byte bounds write payloads by 255 — longer data
makes the encoding fail before anything is sent — and this branch is
unreachable from `write_ihx`, whose chunks are always exactly
`ADDRS_PER_OP = 128` bytes, so every message it sends carries the length
byte 128. -/
theorem C10_payload_bound :
    (∀ (addr : Int) (data : List Nat), 255 < data.length →
      write_msg addr data = .error .packError) ∧
    (∀ (tobin dev : Int → List Nat) (ranges : List (Int × Int)),
      (∀ a, (tobin a).length = ADDRS_PER_OP) →
      (∀ a ∈ ranges.flatMap (fun p => strides p.1 p.2), 0 ≤ a ∧ a < 4294967296) →
      (write_ihx_phase2 tobin dev ranges).2 ≠ some .packError ∧
      ∀ m ∈ (write_ihx_phase2 tobin dev ranges).1,
        ∃ a, m = le4 a.toNat ++ ADDRS_PER_OP :: tobin a) := by
  constructor
  · intro addr data h
    unfold write_msg pack_IB
    rw [if_neg (by omega)]
  · intro tobin dev ranges hlen hbound
    have h := write_verify_go_spec tobin dev
      (ranges.flatMap (fun p => strides p.1 p.2))
      (fun a ha => ⟨(hbound a ha).1, (hbound a ha).2, by rw [hlen]; norm_num [ADDRS_PER_OP]⟩)
    refine ⟨h.1, ?_⟩
    intro m hm
    obtain ⟨a, _, hae⟩ := h.2 m hm
    exact ⟨a, by rw [hae, hlen]⟩

set_option maxRecDepth 4096 in
/-- C10: witness — a 256-byte payload is rejected before sending, and a
concrete `write_ihx` run sends only messages with length byte 128. -/
theorem C10_witness :
    write_msg 0 (List.replicate 256 3) = .error .packError ∧
    (write_ihx_phase2 (fun _ => List.replicate 128 7) (fun _ => List.replicate 128 7)
      [(0, 1)]).2 ≠ some .packError := by
  refine ⟨C10_payload_bound.1 0 (List.replicate 256 3)
    (by rw [List.length_replicate]; norm_num), ?_⟩
  exact (C10_payload_bound.2 (fun _ => List.replicate 128 7) (fun _ => List.replicate 128 7)
    [(0, 1)] (fun _ => rfl) (by decide)).1

lemma stm_some_bounds (a : Int) (s : Nat) (h : stm_addr_sector_map a = some s) :
    s < 12 ∧ stmSectorStart s ≤ a ∧ a < stmSectorStart (s + 1) := by
  unfold stm_addr_sector_map at h
  by_cases h0 : (0x08000000 : Int) ≤ a ∧ a < 0x08004000
  · rw [if_pos h0] at h
    injection h with h
    subst h
    refine ⟨by norm_num, ?_⟩
    simp only [stmSectorStart]
    omega
  rw [if_neg h0] at h
  by_cases h1 : (0x08004000 : Int) ≤ a ∧ a < 0x08008000
  · rw [if_pos h1] at h
    injection h with h
    subst h
    refine ⟨by norm_num, ?_⟩
    simp only [stmSectorStart]
    omega
  rw [if_neg h1] at h
  by_cases h2 : (0x08008000 : Int) ≤ a ∧ a < 0x0800C000
  · rw [if_pos h2] at h
    injection h with h
    subst h
    refine ⟨by norm_num, ?_⟩
    simp only [stmSectorStart]
    omega
  rw [if_neg h2] at h
  by_cases h3 : (0x0800C000 : Int) ≤ a ∧ a < 0x08010000
  · rw [if_pos h3] at h
    injection h with h
    subst h
    refine ⟨by norm_num, ?_⟩
    simp only [stmSectorStart]
    omega
  rw [if_neg h3] at h
  by_cases h4 : (0x08010000 : Int) ≤ a ∧ a < 0x08020000
  · rw [if_pos h4] at h
    injection h with h
    subst h
    refine ⟨by norm_num, ?_⟩
    simp only [stmSectorStart]
    omega
  rw [if_neg h4] at h
  by_cases h5 : (0x08020000 : Int) ≤ a ∧ a < 0x08040000
  · rw [if_pos h5] at h
    injection h with h
    subst h
    refine ⟨by norm_num, ?_⟩
    simp only [stmSectorStart]
    omega
  rw [if_neg h5] at h
  by_cases h6 : (0x08040000 : Int) ≤ a ∧ a < 0x08060000
  · rw [if_pos h6] at h
    injection h with h
    subst h
    refine ⟨by norm_num, ?_⟩
    simp only [stmSectorStart]
    omega
  rw [if_neg h6] at h
  by_cases h7 : (0x08060000 : Int) ≤ a ∧ a < 0x08080000
  · rw [if_pos h7] at h
    injection h with h
    subst h
    refine ⟨by norm_num, ?_⟩
    simp only [stmSectorStart]
    omega
  rw [if_neg h7] at h
  by_cases h8 : (0x08080000 : Int) ≤ a ∧ a < 0x080A0000
  · rw [if_pos h8] at h
    injection h with h
    subst h
    refine ⟨by norm_num, ?_⟩
    simp only [stmSectorStart]
    omega
  rw [if_neg h8] at h
  by_cases h9 : (0x080A0000 : Int) ≤ a ∧ a < 0x080C0000
  · rw [if_pos h9] at h
    injection h with h
    subst h
    refine ⟨by norm_num, ?_⟩
    simp only [stmSectorStart]
    omega
  rw [if_neg h9] at h
  by_cases h10 : (0x080C0000 : Int) ≤ a ∧ a < 0x080E0000
  · rw [if_pos h10] at h
    injection h with h
    subst h
    refine ⟨by norm_num, ?_⟩
    simp only [stmSectorStart]
    omega
  rw [if_neg h10] at h
  by_cases h11 : (0x080E0000 : Int) ≤ a ∧ a < 0x08100000
  · rw [if_pos h11] at h
    injection h with h
    subst h
    refine ⟨by norm_num, ?_⟩
    simp only [stmSectorStart]
    omega
  rw [if_neg h11] at h
  exact absurd h (by simp)

lemma stm_total (a : Int) (hlo : (0x08000000 : Int) ≤ a) (hhi : a < 0x08100000) :
    ∃ s, s < 12 ∧ stm_addr_sector_map a = some s := by
  unfold stm_addr_sector_map
  by_cases h0 : (0x08000000 : Int) ≤ a ∧ a < 0x08004000
  · rw [if_pos h0]; exact ⟨0, by norm_num, rfl⟩
  rw [if_neg h0]
  by_cases h1 : (0x08004000 : Int) ≤ a ∧ a < 0x08008000
  · rw [if_pos h1]; exact ⟨1, by norm_num, rfl⟩
  rw [if_neg h1]
  by_cases h2 : (0x08008000 : Int) ≤ a ∧ a < 0x0800C000
  · rw [if_pos h2]; exact ⟨2, by norm_num, rfl⟩
  rw [if_neg h2]
  by_cases h3 : (0x0800C000 : Int) ≤ a ∧ a < 0x08010000
  · rw [if_pos h3]; exact ⟨3, by norm_num, rfl⟩
  rw [if_neg h3]
  by_cases h4 : (0x08010000 : Int) ≤ a ∧ a < 0x08020000
  · rw [if_pos h4]; exact ⟨4, by norm_num, rfl⟩
  rw [if_neg h4]
  by_cases h5 : (0x08020000 : Int) ≤ a ∧ a < 0x08040000
  · rw [if_pos h5]; exact ⟨5, by norm_num, rfl⟩
  rw [if_neg h5]
  by_cases h6 : (0x08040000 : Int) ≤ a ∧ a < 0x08060000
  · rw [if_pos h6]; exact ⟨6, by norm_num, rfl⟩
  rw [if_neg h6]
  by_cases h7 : (0x08060000 : Int) ≤ a ∧ a < 0x08080000
  · rw [if_pos h7]; exact ⟨7, by norm_num, rfl⟩
  rw [if_neg h7]
  by_cases h8 : (0x08080000 : Int) ≤ a ∧ a < 0x080A0000
  · rw [if_pos h8]; exact ⟨8, by norm_num, rfl⟩
  rw [if_neg h8]
  by_cases h9 : (0x080A0000 : Int) ≤ a ∧ a < 0x080C0000
  · rw [if_pos h9]; exact ⟨9, by norm_num, rfl⟩
  rw [if_neg h9]
  by_cases h10 : (0x080C0000 : Int) ≤ a ∧ a < 0x080E0000
  · rw [if_pos h10]; exact ⟨10, by norm_num, rfl⟩
  rw [if_neg h10]
  by_cases h11 : (0x080E0000 : Int) ≤ a ∧ a < 0x08100000
  · rw [if_pos h11]; exact ⟨11, by norm_num, rfl⟩
  exfalso
  omega

lemma stmStart_mono_bounded : ∀ i < 13, ∀ j < 13, i ≤ j → stmSectorStart i ≤ stmSectorStart j := by
  decide

lemma stm_mono (a b : Int) (sa sb : Nat) (hab : a ≤ b)
    (ha : stm_addr_sector_map a = some sa) (hb : stm_addr_sector_map b = some sb) :
    sa ≤ sb := by
  obtain ⟨ha12, halo, hahi⟩ := stm_some_bounds a sa ha
  obtain ⟨hb12, hblo, hbhi⟩ := stm_some_bounds b sb hb
  by_contra hlt
  push_neg at hlt
  have h1 : stmSectorStart (sb + 1) ≤ stmSectorStart sa :=
    stmStart_mono_bounded (sb + 1) (by omega) sa (by omega) (by omega)
  linarith

lemma stm_of_bounds (a : Int) (s : Nat) (hs : s < 12)
    (hlo : stmSectorStart s ≤ a) (hhi : a < stmSectorStart (s + 1)) :
    stm_addr_sector_map a = some s := by
  have hw1 : (0x08000000 : Int) ≤ stmSectorStart s := by
    have := stmStart_mono_bounded 0 (by norm_num) s (by omega) (by omega)
    simpa [stmSectorStart] using this
  have hw2 : stmSectorStart (s + 1) ≤ 0x08100000 := by
    have := stmStart_mono_bounded (s + 1) (by omega) 12 (by norm_num) (by omega)
    simpa [stmSectorStart] using this
  obtain ⟨t, ht, heq⟩ := stm_total a (le_trans hw1 hlo) (lt_of_lt_of_le hhi hw2)
  obtain ⟨_, htlo, hthi⟩ := stm_some_bounds a t heq
  have hst : s = t := by
    by_contra hne
    rcases Nat.lt_or_ge s t with hcase | hcase
    · have : stmSectorStart (s + 1) ≤ stmSectorStart t :=
        stmStart_mono_bounded (s + 1) (by omega) t (by omega) (by omega)
      linarith
    · have hts : t < s := by omega
      have : stmSectorStart (t + 1) ≤ stmSectorStart s :=
        stmStart_mono_bounded (t + 1) (by omega) s (by omega) (by omega)
      linarith
  rw [hst]
  exact heq

lemma stmStart_in_window :
    ∀ s < 13, (0x08000000 : Int) ≤ stmSectorStart s ∧ stmSectorStart s ≤ 0x08100000 := by
  decide

/-- C4: counterexample — address 0 lies outside the STM valid window, yet
the STM map silently yields nothing (Python `None`) instead of failing
with an error. -/
theorem C4_counterexample : stm_addr_sector_map 0 = none := rfl

/-- C4 (amended): outside its valid window the M25 map does fail with an
error (`ValueError`), but the STM map returns no sector (`None`) rather
than failing. -/
theorem C4_out_of_window (a : Int) :
    (a < 0x08000000 ∨ 0x08100000 ≤ a → stm_addr_sector_map a = none) ∧
    (a < 0 ∨ 0xFFFFF < a → m25_addr_sector_map a = .error ()) := by
  constructor
  · intro h
    cases hopt : stm_addr_sector_map a with
    | none => rfl
    | some s =>
      obtain ⟨hs, hlo, hhi⟩ := stm_some_bounds a s hopt
      have h1 := (stmStart_in_window s (by omega)).1
      have h2 := (stmStart_in_window (s + 1) (by omega)).2
      exfalso
      rcases h with h | h
      · linarith
      · linarith
  · intro h
    unfold m25_addr_sector_map
    rw [if_pos h]

/-- C4: witness instantiating the amended theorem at concrete
out-of-window addresses. -/
theorem C4_witness :
    stm_addr_sector_map 0x08100000 = none ∧ m25_addr_sector_map 0x100000 = .error () := by
  exact ⟨(C4_out_of_window 0x08100000).1 (by norm_num),
         (C4_out_of_window 0x100000).2 (by norm_num)⟩

/-- C5: over the window [0x08000000, 0x08100000) the STM map is total onto
sectors 0–11, monotone non-decreasing, and partitions the window into the
12 contiguous non-overlapping ranges delimited by `stmSectorStart`, whose
sizes are 16KiB for sectors 0–3, 64KiB for sector 4 and 128KiB for
sectors 5–11. -/
theorem C5_stm_sector_partition :
    (∀ a : Int, 0x08000000 ≤ a → a < 0x08100000 →
      ∃ s, s < 12 ∧ stm_addr_sector_map a = some s) ∧
    (∀ (a b : Int) (sa sb : Nat), a ≤ b → stm_addr_sector_map a = some sa →
      stm_addr_sector_map b = some sb → sa ≤ sb) ∧
    (∀ s, s < 12 → ∀ a : Int,
      stm_addr_sector_map a = some s ↔
        stmSectorStart s ≤ a ∧ a < stmSectorStart (s + 1)) ∧
    (∀ s < 4, stmSectorStart (s + 1) - stmSectorStart s = 16384) ∧
    stmSectorStart 5 - stmSectorStart 4 = 65536 ∧
    (∀ s < 12, 5 ≤ s → stmSectorStart (s + 1) - stmSectorStart s = 131072) := by
  refine ⟨stm_total, stm_mono, ?_, by decide, by decide, by decide⟩
  intro s hs a
  exact ⟨fun h => (stm_some_bounds a s h).2, fun h => stm_of_bounds a s hs h.1 h.2⟩

set_option maxRecDepth 4096 in
/-- C5: witness — the partition theorem applied at concrete addresses:
0x08012345 lies in sector 4, and the boundary address 0x08020000 in
sector 5. -/
theorem C5_witness :
    (∃ s, s < 12 ∧ stm_addr_sector_map 0x08012345 = some s) ∧
    stm_addr_sector_map 0x08012345 = some 4 ∧
    stm_addr_sector_map 0x08020000 = some 5 := by
  refine ⟨C5_stm_sector_partition.1 0x08012345 (by norm_num) (by norm_num), ?_, ?_⟩
  · exact (C5_stm_sector_partition.2.2.1 4 (by norm_num) 0x08012345).mpr
      (by constructor <;> (simp only [stmSectorStart]; norm_num))
  · exact (C5_stm_sector_partition.2.2.1 5 (by norm_num) 0x08020000).mpr
      (by constructor <;> (simp only [stmSectorStart]; norm_num))

lemma ihxGo_head (ys : List Int) : ∀ f l : Int, ∃ q rest, ihxGo f l ys = (f, q) :: rest := by
  induction ys with
  | nil => intro f l; exact ⟨l, [], rfl⟩
  | cons y ys ih =>
    intro f l
    unfold ihxGo
    by_cases h : y = l + 1
    · rw [if_pos h]; exact ih f y
    · rw [if_neg h]; exact ⟨l, _, rfl⟩

lemma ihxGo_spec (ys : List Int) : ∀ f l : Int, f ≤ l →
    List.Chain' (· < ·) (l :: ys) →
    (∀ p ∈ ihxGo f l ys, p.1 ≤ p.2) ∧
    List.Chain' (fun p q : Int × Int => p.2 + 1 < q.1) (ihxGo f l ys) ∧
    (∀ x : Int, ((f ≤ x ∧ x ≤ l) ∨ x ∈ ys) ↔
      ∃ p ∈ ihxGo f l ys, p.1 ≤ x ∧ x ≤ p.2) := by
  induction ys with
  | nil =>
    intro f l hfl _
    refine ⟨?_, ?_, ?_⟩
    · intro p hp
      simp only [ihxGo, List.mem_singleton] at hp
      subst hp
      exact hfl
    · simp [ihxGo]
    · intro x
      simp [ihxGo]
  | cons y ys ih =>
    intro f l hfl hch
    have hly : l < y := (List.chain'_cons.mp hch).1
    have hch' : List.Chain' (· < ·) (y :: ys) := (List.chain'_cons.mp hch).2
    unfold ihxGo
    by_cases hy : y = l + 1
    · rw [if_pos hy]
      have hfy : f ≤ y := by omega
      obtain ⟨w1, w2, w3⟩ := ih f y hfy hch'
      refine ⟨w1, w2, ?_⟩
      intro x
      rw [← w3 x]
      constructor
      · rintro (⟨hx1, hx2⟩ | hx)
        · exact Or.inl ⟨hx1, by omega⟩
        · rcases List.mem_cons.mp hx with rfl | hx
          · exact Or.inl ⟨hfy, le_refl x⟩
          · exact Or.inr hx
      · rintro (⟨hx1, hx2⟩ | hx)
        · by_cases hxl : x ≤ l
          · exact Or.inl ⟨hx1, hxl⟩
          · have : x = y := by omega
            rw [this]
            exact Or.inr (List.mem_cons_self _ _)
        · exact Or.inr (List.mem_cons_of_mem _ hx)
    · rw [if_neg hy]
      obtain ⟨w1, w2, w3⟩ := ih y y (le_refl y) hch'
      obtain ⟨q, rest, hhead⟩ := ihxGo_head ys y y
      refine ⟨?_, ?_, ?_⟩
      · intro p hp
        rcases List.mem_cons.mp hp with rfl | hp
        · exact hfl
        · exact w1 p hp
      · rw [List.chain'_cons']
        refine ⟨?_, w2⟩
        intro z hz
        rw [hhead] at hz
        simp only [List.head?_cons, Option.mem_def, Option.some_inj] at hz
        subst hz
        show l + 1 < y
        omega
      · intro x
        constructor
        · rintro (⟨hx1, hx2⟩ | hx)
          · exact ⟨(f, l), List.mem_cons_self _ _, hx1, hx2⟩
          · rcases List.mem_cons.mp hx with rfl | hx
            · obtain ⟨p, hp, hpx⟩ := (w3 x).mp (Or.inl ⟨le_refl x, le_refl x⟩)
              exact ⟨p, List.mem_cons_of_mem _ hp, hpx⟩
            · obtain ⟨p, hp, hpx⟩ := (w3 x).mp (Or.inr hx)
              exact ⟨p, List.mem_cons_of_mem _ hp, hpx⟩
        · rintro ⟨p, hp, hpx1, hpx2⟩
          rcases List.mem_cons.mp hp with rfl | hp
          · exact Or.inl ⟨hpx1, hpx2⟩
          · rcases (w3 x).mpr ⟨p, hp, hpx1, hpx2⟩ with ⟨ha, hb⟩ | hx
            · have : x = y := le_antisymm hb ha
              rw [this]
              exact Or.inr (List.mem_cons_self _ _)
            · exact Or.inr (List.mem_cons_of_mem _ hx)

/-- C1: counterexample — for the populated addresses 10,11,12,20,21,50 the
range extractor returns the INCLUSIVE pairs [(10,12),(20,21),(50,50)], not
the end-exclusive [(10,13),(20,22),(50,51)] the claim states. -/
theorem C1_counterexample :
    ihx_ranges [10, 11, 12, 20, 21, 50] = [(10, 12), (20, 21), (50, 50)] ∧
    ihx_ranges [10, 11, 12, 20, 21, 50] ≠ [(10, 13), (20, 22), (50, 51)] := by
  decide

/-- C1 (amended): applied to a strictly ascending address list, the range
extractor returns the ordered sequence of maximal contiguous runs as
INCLUSIVE pairs: every pair (s, e) satisfies s ≤ e, consecutive pairs are
separated by a gap (e + 1 < next s, so each run is maximal), and an
address is populated iff it lies in some returned [s, e]. -/
theorem C1_ranges_inclusive (xs : List Int) (hasc : List.Chain' (· < ·) xs) :
    (∀ p ∈ ihx_ranges xs, p.1 ≤ p.2) ∧
    List.Chain' (fun p q : Int × Int => p.2 + 1 < q.1) (ihx_ranges xs) ∧
    (∀ x : Int, x ∈ xs ↔ ∃ p ∈ ihx_ranges xs, p.1 ≤ x ∧ x ≤ p.2) := by
  cases xs with
  | nil => simp [ihx_ranges]
  | cons x xs =>
    obtain ⟨w1, w2, w3⟩ := ihxGo_spec xs x x (le_refl x) hasc
    unfold ihx_ranges
    refine ⟨w1, w2, ?_⟩
    intro z
    rw [← w3 z]
    constructor
    · intro hz
      rcases List.mem_cons.mp hz with rfl | hz
      · exact Or.inl ⟨le_refl z, le_refl z⟩
      · exact Or.inr hz
    · rintro (⟨h1, h2⟩ | hz)
      · have : z = x := le_antisymm h2 h1
        rw [this]
        exact List.mem_cons_self _ _
      · exact List.mem_cons_of_mem _ hz

/-- C1: witness — the amended theorem instantiated at the spec's example
input 10,11,12,20,21,50. -/
theorem C1_witness :
    (∀ p ∈ ihx_ranges [10, 11, 12, 20, 21, 50], p.1 ≤ p.2) ∧
    List.Chain' (fun p q : Int × Int => p.2 + 1 < q.1)
      (ihx_ranges [10, 11, 12, 20, 21, 50]) ∧
    (∀ x : Int, x ∈ [10, 11, 12, 20, 21, 50] ↔
      ∃ p ∈ ihx_ranges [10, 11, 12, 20, 21, 50], p.1 ≤ x ∧ x ≤ p.2) :=
  C1_ranges_inclusive [10, 11, 12, 20, 21, 50] (by norm_num [List.chain'_cons])

lemma write_verify_go_abort (tobin dev : Int → List Nat) :
    ∀ (l : List Int) (a0 : Int),
    (∀ a ∈ l, 0 ≤ a ∧ a < 4294967296 ∧ (tobin a).length ≤ 255) →
    l.find? (fun a => !decide (dev a = tobin a)) = some a0 →
    (write_verify_go tobin dev l).2 = some (.verifyError a0) ∧
    (write_verify_go tobin dev l).1 =
      (l.takeWhile (fun a => decide (dev a = tobin a)) ++ [a0]).map
        (fun a => le4 a.toNat ++ (tobin a).length :: tobin a) := by
  intro l
  induction l with
  | nil =>
    intro a0 _ hfind
    simp at hfind
  | cons a rest ih =>
    intro a0 hb hfind
    obtain ⟨h0, h1, h2⟩ := hb a (List.mem_cons_self _ _)
    have hmsg := write_msg_ok a (tobin a) h0 h1 h2
    by_cases hd : dev a = tobin a
    · rw [List.find?_cons_of_neg _ (by simp [hd])] at hfind
      have hrec := ih a0 (fun x hx => hb x (List.mem_cons_of_mem _ hx)) hfind
      unfold write_verify_go
      rw [hmsg]
      dsimp only
      rw [if_pos hd]
      dsimp only
      refine ⟨hrec.1, ?_⟩
      rw [List.takeWhile_cons_of_pos (by simp [hd])]
      simp only [List.cons_append, List.map_cons]
      rw [hrec.2]
    · rw [List.find?_cons_of_pos _ (by simp [hd])] at hfind
      injection hfind with hfind
      subst hfind
      unfold write_verify_go
      rw [hmsg]
      dsimp only
      rw [if_neg hd]
      refine ⟨rfl, ?_⟩
      rw [List.takeWhile_cons_of_neg (by simp [hd])]
      simp

/-- C8: if some stride's read-back differs from the chunk written, the
write+verify phase of `write_ihx` aborts at the FIRST mismatching stride
`a0` with the verification error carrying that address, and the write
messages it sent are exactly those for the strides before `a0` plus the
one for `a0` itself — no write for any later stride of that or any later
range. -/
theorem C8_verify_abort (tobin dev : Int → List Nat) (ranges : List (Int × Int)) (a0 : Int)
    (hb : ∀ a ∈ ranges.flatMap (fun p => strides p.1 p.2),
      0 ≤ a ∧ a < 4294967296 ∧ (tobin a).length ≤ 255)
    (hfind : (ranges.flatMap (fun p => strides p.1 p.2)).find?
      (fun a => !decide (dev a = tobin a)) = some a0) :
    (write_ihx_phase2 tobin dev ranges).2 = some (.verifyError a0) ∧
    (write_ihx_phase2 tobin dev ranges).1 =
      ((ranges.flatMap (fun p => strides p.1 p.2)).takeWhile
        (fun a => decide (dev a = tobin a)) ++ [a0]).map
        (fun a => le4 a.toNat ++ (tobin a).length :: tobin a) :=
  write_verify_go_abort tobin dev _ a0 hb hfind

set_option maxRecDepth 8192 in
/-- C8: witness — a device whose read-back is wrong from address 128 on:
the run over the single range [0, 200) writes the strides 0 and 128, then
aborts with the verification error at 128. -/
theorem C8_witness :
    (write_ihx_phase2 (fun _ => [1]) (fun a => if a = 0 then [1] else [2]) [(0, 200)]).2 =
      some (.verifyError 128) ∧
    (write_ihx_phase2 (fun _ => [1]) (fun a => if a = 0 then [1] else [2]) [(0, 200)]).1 =
      (([0, 128] : List Int).takeWhile
        (fun a => decide ((if a = 0 then [1] else [2]) = ([1] : List Nat))) ++ [128]).map
        (fun (a : Int) => le4 a.toNat ++ 1 :: [1]) := by
  exact C8_verify_abort (fun _ => [1]) (fun a => if a = 0 then [1] else [2]) [(0, 200)] 128
    (by decide) (by decide)

lemma mem_sectorSeg (s e x : Nat) : x ∈ sectorSeg s e ↔ s ≤ x ∧ x ≤ e := by
  unfold sectorSeg
  simp only [List.mem_map, List.mem_range]
  constructor
  · rintro ⟨k, hk, rfl⟩
    omega
  · rintro ⟨h1, h2⟩
    exact ⟨x - s, by omega, by omega⟩

lemma sectors_used_fold (ft : FlashType) :
    ∀ (addrs : List (Int × Int)) (acc : List Nat),
    (∀ p ∈ addrs, (addr_sector_map ft p.1).isSome ∧ (addr_sector_map ft p.2).isSome) →
    ∃ L, (addrs.foldlM (fun (acc : List Nat) (p : Int × Int) => do
        let s ← addr_sector_map ft p.1
        let e ← addr_sector_map ft p.2
        pure (acc ++ sectorSeg s e)) acc) = some L ∧
      ∀ x, x ∈ L ↔ x ∈ acc ∨ ∃ p ∈ addrs, ∃ s e, addr_sector_map ft p.1 = some s ∧
        addr_sector_map ft p.2 = some e ∧ s ≤ x ∧ x ≤ e := by
  intro addrs
  induction addrs with
  | nil =>
    intro acc _
    exact ⟨acc, rfl, by simp⟩
  | cons p rest ih =>
    intro acc hall
    obtain ⟨hp1, hp2⟩ := hall p (List.mem_cons_self _ _)
    obtain ⟨s, hs⟩ := Option.isSome_iff_exists.mp hp1
    obtain ⟨e, he⟩ := Option.isSome_iff_exists.mp hp2
    obtain ⟨L, hL, hmem⟩ :=
      ih (acc ++ sectorSeg s e) (fun q hq => hall q (List.mem_cons_of_mem _ hq))
    refine ⟨L, ?_, ?_⟩
    · rw [List.foldlM_cons]
      simp only [hs, he, Option.bind_eq_bind, Option.some_bind, pure]
      exact hL
    · intro x
      rw [hmem x, List.mem_append, mem_sectorSeg]
      constructor
      · rintro ((hx | ⟨hx1, hx2⟩) | ⟨q, hq, hex⟩)
        · exact Or.inl hx
        · exact Or.inr ⟨p, List.mem_cons_self _ _, s, e, hs, he, hx1, hx2⟩
        · exact Or.inr ⟨q, List.mem_cons_of_mem _ hq, hex⟩
      · rintro (hx | ⟨q, hq, s', e', hs', he', hx1, hx2⟩)
        · exact Or.inl (Or.inl hx)
        · rcases List.mem_cons.mp hq with rfl | hq
          · rw [hs] at hs'
            rw [he] at he'
            injection hs' with hs'
            injection he' with he'
            subst hs'
            subst he'
            exact Or.inl (Or.inr ⟨hx1, hx2⟩)
          · exact Or.inr ⟨q, hq, s', e', hs', he', hx1, hx2⟩

lemma addr_sector_map_mono (ft : FlashType) (a b : Int) (sa sb : Nat) (hab : a ≤ b)
    (ha : addr_sector_map ft a = some sa) (hb : addr_sector_map ft b = some sb) :
    sa ≤ sb := by
  cases ft
  · exact stm_mono a b sa sb hab ha hb
  · unfold addr_sector_map m25_addr_sector_map at ha hb
    by_cases hA : a < 0 ∨ (0xFFFFF : Int) < a
    · rw [if_pos hA] at ha
      simp [Except.toOption] at ha
    · rw [if_neg hA] at ha
      by_cases hB : b < 0 ∨ (0xFFFFF : Int) < b
      · rw [if_pos hB] at hb
        simp [Except.toOption] at hb
      · rw [if_neg hB] at hb
        simp only [Except.toOption, Option.some_inj] at ha hb
        rw [← ha, ← hb, Nat.shiftRight_eq_div_pow, Nat.shiftRight_eq_div_pow]
        exact Nat.div_le_div_right (Int.toNat_le_toNat hab)

/-- C7: for address ranges whose endpoints all have a sector (lie in the
device's valid window), `sectors_used` succeeds and returns a strictly
increasing (hence sorted and duplicate-free) list containing exactly the
sectors spanned by the ranges — a sector is listed iff it lies between the
start-endpoint's sector and the end-endpoint's sector of some range — and
in particular both endpoints' sectors of every range are listed. -/
theorem C7_sectors_used (ft : FlashType) (addrs : List (Int × Int))
    (hall : ∀ p ∈ addrs, p.1 ≤ p.2 ∧ (addr_sector_map ft p.1).isSome ∧
      (addr_sector_map ft p.2).isSome) :
    ∃ l, sectors_used ft addrs = some l ∧
      List.Pairwise (· < ·) l ∧
      (∀ x, x ∈ l ↔ ∃ p ∈ addrs, ∃ s e, addr_sector_map ft p.1 = some s ∧
        addr_sector_map ft p.2 = some e ∧ s ≤ x ∧ x ≤ e) ∧
      (∀ p ∈ addrs, ∃ s e, addr_sector_map ft p.1 = some s ∧
        addr_sector_map ft p.2 = some e ∧ s ∈ l ∧ e ∈ l) := by
  obtain ⟨L, hL, hmem⟩ := sectors_used_fold ft addrs [] (fun p hp => (hall p hp).2)
  have hperm := List.perm_insertionSort (α := Nat) (· ≤ ·) L.dedup
  have hmx : ∀ x, x ∈ L.dedup.insertionSort (· ≤ ·) ↔ x ∈ L := by
    intro x
    rw [hperm.mem_iff, List.mem_dedup]
  have hchar : ∀ x, x ∈ L.dedup.insertionSort (· ≤ ·) ↔
      ∃ p ∈ addrs, ∃ s e, addr_sector_map ft p.1 = some s ∧
        addr_sector_map ft p.2 = some e ∧ s ≤ x ∧ x ≤ e := by
    intro x
    rw [hmx x, hmem x]
    simp
  refine ⟨L.dedup.insertionSort (· ≤ ·), ?_, ?_, hchar, ?_⟩
  · unfold sectors_used
    rw [hL]
    rfl
  · have hsorted : List.Sorted (· ≤ ·) (L.dedup.insertionSort (· ≤ ·)) :=
      List.sorted_insertionSort _ _
    have hnd : (L.dedup.insertionSort (· ≤ ·)).Nodup :=
      hperm.nodup_iff.mpr L.nodup_dedup
    exact (hsorted.and hnd).imp (fun h => lt_of_le_of_ne h.1 h.2)
  · intro p hp
    obtain ⟨hple, hp1, hp2⟩ := hall p hp
    obtain ⟨s, hs⟩ := Option.isSome_iff_exists.mp hp1
    obtain ⟨e, he⟩ := Option.isSome_iff_exists.mp hp2
    have hse : s ≤ e := addr_sector_map_mono ft p.1 p.2 s e hple hs he
    exact ⟨s, e, hs, he,
      (hchar s).mpr ⟨p, hp, s, e, hs, he, le_refl s, hse⟩,
      (hchar e).mpr ⟨p, hp, s, e, hs, he, hse, le_refl e⟩⟩

set_option maxRecDepth 8192 in
/-- C7: witness — the theorem applied to the concrete STM range
[0x08000000, 0x08005000], which spans sectors 0 and 1. -/
theorem C7_witness :
    ∃ l, sectors_used .STM [((0x08000000 : Int), (0x08005000 : Int))] = some l ∧
      List.Pairwise (· < ·) l ∧
      (∀ x, x ∈ l ↔ ∃ p ∈ [((0x08000000 : Int), (0x08005000 : Int))], ∃ s e,
        addr_sector_map .STM p.1 = some s ∧ addr_sector_map .STM p.2 = some e ∧
        s ≤ x ∧ x ≤ e) ∧
      (∀ p ∈ [((0x08000000 : Int), (0x08005000 : Int))], ∃ s e,
        addr_sector_map .STM p.1 = some s ∧ addr_sector_map .STM p.2 = some e ∧
        s ∈ l ∧ e ∈ l) :=
  C7_sectors_used .STM [((0x08000000 : Int), (0x08005000 : Int))] (by decide)

end PiksiFlash
